import Mathlib

/-!
Verification development for the schema-inference / marshalling core of
`django-typescript` (`model_types/serializer.py`, `transpile/object_type.py`).

The embedding translates the Python source into Lean:
* Python `dict`s become association lists with unique keys; insertion
  preserves the position of an existing key (CPython semantics), and
  `{**a, **b}` becomes `dictMerge a b`.
* Django model metadata (`_meta`, fields, related models) is embedded as
  explicit data (`ModelClass`, `ConcreteField`, `ForwardRelField`), with the
  host framework's field-introspection outputs (`build_standard_field`,
  `serializer_field_mapping`, the `config.FIELD_TYPES` registry) carried as
  oracle data on the field descriptors, since they are external collaborators.
* Exceptions become `Except Err`; an uncaught Python exception is an
  `.error` value.
* The ORM lookup `Model.objects.get(pk=v)` becomes an abstract database
  function `DB : String → Value → Option Value` (`none` models `DoesNotExist`).
-/

set_option maxHeartbeats 1000000

namespace DjangoTS

/-! ## Python dictionaries as association lists -/

def dictGet {α : Type} (d : List (String × α)) (k : String) : Option α :=
  (d.find? (fun p => p.1 = k)).map (·.2)

/-- CPython dict assignment `d[k] = v`: overwrites in place if the key is
present (keeping its position), otherwise appends at the end. -/
def dictInsert {α : Type} (d : List (String × α)) (k : String) (v : α) :
    List (String × α) :=
  if d.any (fun p => p.1 = k) then
    d.map (fun p => if p.1 = k then (k, v) else p)
  else
    d ++ [(k, v)]

/-- Python `{**a, **b}`. -/
def dictMerge {α : Type} (a b : List (String × α)) : List (String × α) :=
  b.foldl (fun acc p => dictInsert acc p.1 p.2) a

def dictKeys {α : Type} (d : List (String × α)) : List String := d.map (·.1)

/-! ## Values and errors -/

/-- Runtime values flowing through `attrs` dictionaries: raw scalars,
`None`, and fetched model instances (`obj modelName pk`). -/
inductive Value where
  | none_ : Value
  | int : Int → Value
  | str : String → Value
  | obj : String → Value → Value
deriving DecidableEq, Repr

/-- Uncaught Python exceptions of the embedded code. -/
inductive Err where
  | configurationError (msg : String)
  | fieldDoesNotExist (name : String)
  | attributeError
  | doesNotExist (modelName : String)
  | validationError (msg : String)
deriving DecidableEq, Repr

/-! ## Serializer fields (DRF field instances) -/

inductive SFieldClass where
  | integerField
  | charField
  | booleanField
  | jsonField
  | other (tag : String)
deriving DecidableEq, Repr

inductive FieldValidator where
  | declared (tag : String)
  | unique (queryset : String)
deriving DecidableEq, Repr

inductive KwValue where
  | bool (b : Bool)
  | str (s : String)
  | vals (vs : List FieldValidator)
deriving DecidableEq, Repr

abbrev Kwargs := List (String × KwValue)

/-- A constructed DRF serializer field: `field_class(**field_kwargs)`. -/
structure FieldSerializer where
  fieldClass : SFieldClass
  kwargs : Kwargs
deriving DecidableEq, Repr

/-- The `allow_null` attribute of a DRF field instance (default `False`). -/
def FieldSerializer.allowNull (f : FieldSerializer) : Bool :=
  match dictGet f.kwargs "allow_null" with
  | some (.bool b) => b
  | _ => false

/-- The `read_only` attribute of a DRF field instance (default `False`). -/
def FieldSerializer.readOnly (f : FieldSerializer) : Bool :=
  match dictGet f.kwargs "read_only" with
  | some (.bool b) => b
  | _ => false

/-! ## Model metadata -/

/-- The primary-key chain of a related model, as walked by
`_resolve_forward_rel_field_type`: either an `AutoField`, a `OneToOneField`
pointing at another model's primary key, or a terminal scalar field type. -/
inductive PkChain where
  | autoField
  | oneToOne (next : PkChain)
  | scalar (fieldTypeTag : String)
deriving DecidableEq, Repr

/-- A concrete (non-relational) model field.  `registered` is the
`config.FIELD_TYPES` registry entry for its exact type, if any;
`standardBuild` is the oracle result of DRF's
`ModelSerializer.build_standard_field` for this field. -/
structure ConcreteField where
  name : String
  null : Bool
  registered : Option SFieldClass
  standardBuild : SFieldClass × Kwargs
deriving Repr

/-- A forward-relation model field (`ForeignKey` / `OneToOneField`). -/
structure ForwardRelField where
  name : String
  null : Bool
  blank : Bool
  hasDefault : Bool
  unique : Bool
  declaredValidators : List FieldValidator
  relatedModelName : String
  relatedPk : PkChain
  ownerModelName : String
  standardBuild : SFieldClass × Kwargs
deriving Repr

/-- Django's `Field.get_attname()` for a forward relation. -/
def ForwardRelField.attname (f : ForwardRelField) : String := f.name ++ "_id"

inductive AnyField where
  | concrete (f : ConcreteField)
  | forwardRel (f : ForwardRelField)
deriving Repr

def AnyField.name : AnyField → String
  | .concrete f => f.name
  | .forwardRel f => f.name

/-- `field.related_model`: `None` on a non-relational field. -/
def AnyField.relatedModel? : AnyField → Option String
  | .concrete _ => none
  | .forwardRel f => some f.relatedModelName

def AnyField.standardBuild : AnyField → SFieldClass × Kwargs
  | .concrete f => f.standardBuild
  | .forwardRel f => f.standardBuild

/-- A Django model class.  Modelled from the spec: `ModelInspector`
(django_typescript/core/model_inspector.py, not included in src/) exposes the
ordered concrete fields and forward-relation fields as disjoint groups
(§2, §3 ModelDescriptor). -/
structure ModelClass where
  name : String
  concreteFields : List ConcreteField
  forwardRelationFields : List ForwardRelField
deriving Repr

/-- `model_cls._meta.get_field(name)`: fields are found by their `name`
(not by attname); a miss raises `FieldDoesNotExist`. -/
def ModelClass.getField (m : ModelClass) (fieldName : String) : Option AnyField :=
  match m.concreteFields.find? (fun f => f.name = fieldName) with
  | some f => some (.concrete f)
  | none => (m.forwardRelationFields.find? (fun f => f.name = fieldName)).map .forwardRel

/-- The pool of model classes, indexed by name.  A Python model-class
reference is always valid, so the environment is total. -/
abbrev Env := String → ModelClass

abbrev AttrsDict := List (String × Value)

/-- The storage layer: `relatedModel.objects.get(pk=v)`; `none` models an
`ObjectDoesNotExist` exception. -/
abbrev DB := String → Value → Option Value

/-! ## Validator binding -/

/-- A user-supplied `validate` callable: its named parameters (in signature
order) and its behavior (`check` returns `some msg` when the callable raises
a `ValidationError`). -/
structure ValidateFunc where
  params : List String
  check : AttrsDict → Option String

structure ModelTypeValidator where
  validateFunc : ValidateFunc
  validatorFieldNames : List String

/-- Modelled from the spec: `ModelTypeValidator`
(django_typescript/model_types/validator.py, not included in src/).  Per
§4.2, binding a validator extracts the callable's parameter names. -/
def mkModelTypeValidator (f : ValidateFunc) : ModelTypeValidator :=
  ⟨f, f.params⟩

/-- Modelled from the spec: §4.2 step 3 — the wrapped callable is invoked
with the merged kwargs "restricted/expanded to exactly the bound parameter
names".  `callArgs` computes the keyword arguments the callable receives. -/
def ModelTypeValidator.callArgs (v : ModelTypeValidator) (kwargs : AttrsDict) :
    AttrsDict :=
  v.validatorFieldNames.filterMap (fun p => (dictGet kwargs p).map (fun x => (p, x)))

/-- Modelled from the spec: `ModelTypeValidator.validate(**kwargs)` invokes
the wrapped callable on `callArgs`; a failure is signalled by raising a
`ValidationError`, which "propagates unchanged to the caller" (§4.2 step 4).
On success it returns the argument dict actually passed to the callable (the
observable of the invocation). -/
def ModelTypeValidator.validate (v : ModelTypeValidator) (kwargs : AttrsDict) :
    Except Err AttrsDict :=
  match v.validateFunc.check (v.callArgs kwargs) with
  | some msg => .error (.validationError msg)
  | none => .ok (v.callArgs kwargs)

/-! ## ModelTypeSerializer: field registry construction -/

structure ModelTypeSerializer where
  modelCls : ModelClass
  validator : Option ModelTypeValidator
  serializerFieldKwargs : List (String × Kwargs)
  concreteFields : List (String × FieldSerializer)
  propertyFields : List (String × FieldSerializer)
  forwardRelFields : List (String × FieldSerializer)
  forwardRelModelFields : List (String × ForwardRelField)

/-- DRF's `ModelSerializer.serializer_field_mapping` restricted to the
scalar primary-key types this code can meet (external oracle table). -/
def serializerFieldMapping : String → SFieldClass
  | "CharField" => .charField
  | "IntegerField" => .integerField
  | "BooleanField" => .booleanField
  | tag => .other tag

/-- `_resolve_forward_rel_field_type`: walk the related model's primary-key
chain; `AutoField` is special-cased to `AUTO_FIELD_SERIALIZER`
(`serializers.IntegerField`), a `OneToOneField` primary key recurses. -/
def resolveForwardRelFieldType : PkChain → SFieldClass
  | .autoField => .integerField
  | .oneToOne next => resolveForwardRelFieldType next
  | .scalar tag => serializerFieldMapping tag

/-- The concrete-field branch of `_build_concrete_fields` (one model field):
a registered `config.FIELD_TYPES` entry yields
`(serializer_class, {'required': not model_field.null})`, otherwise DRF's
`build_standard_field`; overrides merge on top. -/
def buildConcreteFieldSerializer (overrides : List (String × Kwargs))
    (f : ConcreteField) : FieldSerializer :=
  let pair :=
    match f.registered with
    | some cls => (cls, [("required", KwValue.bool (!f.null))])
    | none => f.standardBuild
  let kwargOverrides := (dictGet overrides f.name).getD []
  ⟨pair.1, dictMerge pair.2 kwargOverrides⟩

/-- The one-to-one proxy-field branch of `_build_concrete_fields` (one proxy
field): kwargs are `{**field_kwargs, **kwarg_overrides, **{'source':
one_to_one_field.name + '.' + model_proxy_field.name}}`. -/
def buildProxyFieldSerializer (env : Env) (m : ModelClass)
    (overrides : List (String × Kwargs)) (oneToOneFieldName proxyFieldName : String) :
    Except Err (String × FieldSerializer) :=
  match m.getField oneToOneFieldName with
  | none => .error (.fieldDoesNotExist oneToOneFieldName)
  | some oneToOneField =>
    match oneToOneField.relatedModel? with
    | none => .error .attributeError
    | some relatedName =>
      let relatedModelCls := env relatedName
      match relatedModelCls.getField proxyFieldName with
      | none => .error (.fieldDoesNotExist proxyFieldName)
      | some proxyField =>
        let pair := proxyField.standardBuild
        let kwargOverrides := (dictGet overrides proxyField.name).getD []
        .ok (proxyField.name,
          ⟨pair.1,
           dictMerge (dictMerge pair.2 kwargOverrides)
             [("source", KwValue.str (oneToOneField.name ++ "." ++ proxyField.name))]⟩)

def buildProxyEntries (env : Env) (m : ModelClass) (overrides : List (String × Kwargs))
    (cfg : List (String × List String)) (acc : List (String × FieldSerializer)) :
    Except Err (List (String × FieldSerializer)) :=
  cfg.foldlM (fun acc entry =>
    entry.2.foldlM (fun acc proxyName => do
      let pr ← buildProxyFieldSerializer env m overrides entry.1 proxyName
      pure (dictInsert acc pr.1 pr.2)) acc) acc

/-- `_forward_rel_field_kwargs`. -/
def forwardRelFieldKwargs (overrides : List (String × Kwargs))
    (f : ForwardRelField) : Kwargs :=
  let kwargOverrides := (dictGet overrides f.name).getD []
  let kw : Kwargs := []
  let kw := if f.hasDefault || f.blank || f.null then
      dictInsert kw "required" (.bool false) else kw
  let kw := if f.null then dictInsert kw "allow_null" (.bool true) else kw
  let kw := if !f.declaredValidators.isEmpty then
      dictInsert kw "validators" (.vals f.declaredValidators) else kw
  let kw := if f.unique then
      dictInsert kw "validators" (.vals
        ((match dictGet kw "validators" with
          | some (.vals vs) => vs
          | _ => []) ++ [FieldValidator.unique f.ownerModelName]))
    else kw
  dictMerge kw kwargOverrides

/-- `_property_field_serializer`: `serializers.JSONField(read_only=True)`. -/
def propertyFieldSerializer : FieldSerializer :=
  ⟨.jsonField, [("read_only", KwValue.bool true)]⟩

/-- `__init__` up to and including `_build_fields` (no validator check yet):
builds the concrete / proxy / forward-relation / property field groups. -/
def buildSerializerCore (env : Env) (modelCls : ModelClass)
    (validateFunc : Option ValidateFunc)
    (serializerFieldKwargs : List (String × Kwargs))
    (oneToOneProxyFields : Option (List (String × List String)))
    (propertyFieldNames : Option (List String)) :
    Except Err ModelTypeSerializer := do
  let validator := validateFunc.map mkModelTypeValidator
  let concrete := modelCls.concreteFields.foldl
    (fun d f => dictInsert d f.name (buildConcreteFieldSerializer serializerFieldKwargs f)) []
  let concrete ← match oneToOneProxyFields with
    | none => pure concrete
    | some cfg => buildProxyEntries env modelCls serializerFieldKwargs cfg concrete
  let fwdPair := modelCls.forwardRelationFields.foldl
    (fun (pr : List (String × FieldSerializer) × List (String × ForwardRelField)) f =>
      (dictInsert pr.1 f.attname
         ⟨resolveForwardRelFieldType f.relatedPk, forwardRelFieldKwargs serializerFieldKwargs f⟩,
       dictInsert pr.2 f.attname f)) ([], [])
  let props := (propertyFieldNames.getD []).foldl
    (fun d n => dictInsert d n propertyFieldSerializer) []
  pure ⟨modelCls, validator, serializerFieldKwargs, concrete, props, fwdPair.1, fwdPair.2⟩

/-- `field_names`: concrete field names followed by forward-relation field
names (attnames). -/
def ModelTypeSerializer.fieldNames (s : ModelTypeSerializer) : List String :=
  dictKeys s.concreteFields ++ dictKeys s.forwardRelFields

/-- `_allowed_validator_field_names`. -/
def ModelTypeSerializer.allowedValidatorFieldNames (s : ModelTypeSerializer) :
    List String :=
  dictKeys s.concreteFields ++ dictKeys s.forwardRelFields ++
    s.forwardRelModelFields.map (fun p => p.2.name)

def configurationErrorMsg : String :=
  "One or more arguments of provided `validate` method does not correspond to a field name."

/-- `ModelTypeSerializer.__init__`: build the field groups, then
`_check_validate_func` asserts that every validator parameter name is an
allowed field name. -/
def mkModelTypeSerializer (env : Env) (modelCls : ModelClass)
    (validateFunc : Option ValidateFunc := none)
    (serializerFieldKwargs : List (String × Kwargs) := [])
    (oneToOneProxyFields : Option (List (String × List String)) := none)
    (propertyFieldNames : Option (List String) := none) :
    Except Err ModelTypeSerializer := do
  let s ← buildSerializerCore env modelCls validateFunc serializerFieldKwargs
    oneToOneProxyFields propertyFieldNames
  match s.validator with
  | some v =>
    if v.validatorFieldNames.all (fun p => p ∈ s.allowedValidatorFieldNames) then
      pure s
    else
      .error (.configurationError configurationErrorMsg)
  | none => pure s

/-! ## Request-time validation -/

/-- Loop body of `_resolve_validator_forward_relations`. -/
def resolveForwardRelationsGo (s : ModelTypeSerializer) (v : ModelTypeValidator)
    (db : DB) : AttrsDict → AttrsDict → Except Err AttrsDict
  | [], acc => .ok acc
  | (k, val) :: rest, acc =>
    match dictGet s.forwardRelModelFields k with
    | some mf =>
      if val = Value.none_ then
        resolveForwardRelationsGo s v db rest acc
      else if mf.name ∈ v.validatorFieldNames then
        match db mf.relatedModelName val with
        | some inst => resolveForwardRelationsGo s v db rest (dictInsert acc mf.name inst)
        | none => .error (.doesNotExist mf.relatedModelName)
      else
        resolveForwardRelationsGo s v db rest acc
    | none => resolveForwardRelationsGo s v db rest acc

/-- `_resolve_validator_forward_relations(data)`. -/
def resolveValidatorForwardRelations (s : ModelTypeSerializer)
    (v : ModelTypeValidator) (db : DB) (data : AttrsDict) : Except Err AttrsDict :=
  resolveForwardRelationsGo s v db data []

/-- The partial-update backfill loop in `validate`:
`attrs[p] = getattr(_self.instance, p)` for every bound parameter `p` not in
`attrs`. -/
def backfillValidatorParams (v : ModelTypeValidator) (instanceAttr : String → Value)
    (attrs : AttrsDict) : AttrsDict :=
  v.validatorFieldNames.foldl
    (fun a p => if (dictGet a p).isNone then dictInsert a p (instanceAttr p) else a)
    attrs

/-- Observable outcome of the serializer's `validate` closure:
`calledArgs` is the keyword-argument dict the bound validator callable
received (`none` when no validator is bound); `result` is the attrs dict the
closure returns. -/
structure ValidateTrace where
  calledArgs : Option AttrsDict
  result : AttrsDict
deriving DecidableEq, Repr

/-- The `validate(_self, attrs)` closure installed by `_build_serializer_cls`:
resolve forward relations from the raw attrs, backfill missing validator
parameters from the existing instance on a partial update, then invoke the
bound validator on `{**attrs, **resolved_relations}` and return `attrs`. -/
def serializerValidate (s : ModelTypeSerializer) (db : DB) (partialUpdate : Bool)
    (instanceAttr : String → Value) (attrs : AttrsDict) : Except Err ValidateTrace :=
  match s.validator with
  | none => .ok ⟨none, attrs⟩
  | some v => do
    let resolved ← resolveValidatorForwardRelations s v db attrs
    let attrs := if partialUpdate then backfillValidatorParams v instanceAttr attrs else attrs
    let called ← v.validate (dictMerge attrs resolved)
    pure ⟨some called, attrs⟩

/-! ## Prefetch tree expansion -/

/-- `types.PrefetchTree`: a string, a flat list of strings, or a mapping
from relation field name to a nested prefetch tree (the "recursive
polymorphism over string | list | mapping", spec §9, as a tagged union). -/
inductive PrefetchTree where
  | leaf (fieldName : String)
  | flat (fieldNames : List String)
  | node (entries : List (String × PrefetchTree))
deriving Repr

/-- A serializer-field value appearing in a dynamically assembled serializer
class dict: either a plain DRF field instance, or a nested serializer
instance `serializer_cls(many=...)` (flattened class representation:
class name, `Meta.fields`, declared fields). -/
inductive FieldRule where
  | plain (fs : FieldSerializer)
  | nested (clsName : String) (metaFields : List String)
      (declaredFields : List (String × FieldRule)) (many : Bool)
deriving Repr

/-- A dynamically synthesized serializer class
(`type(name, (ModelSerializer,), class_dict)`). -/
structure SerializerClsRepr where
  clsName : String
  metaFields : List String
  declaredFields : List (String × FieldRule)
deriving Repr

def plainFields (d : List (String × FieldSerializer)) : List (String × FieldRule) :=
  d.map (fun p => (p.1, FieldRule.plain p.2))

/-- `_build_serializer_cls` result: class dict
`{**{'Meta','validate'}, **concrete_fields, **forward_rel_fields}` with
`Meta.fields = field_names`. -/
def ModelTypeSerializer.baseSerializerCls (s : ModelTypeSerializer) : SerializerClsRepr :=
  ⟨s.modelCls.name ++ "Serializer", s.fieldNames,
   dictMerge (plainFields s.concreteFields) (plainFields s.forwardRelFields)⟩

/-- `_build_prefetch_serializer(prefetch_field)`: look the name up with
`get_field` and synthesize a nested (non-list) serializer for the related
model; `FieldDoesNotExist` is caught and falls back to the opaque property
field serializer (any other exception propagates). -/
def ModelTypeSerializer.buildPrefetchSerializer (env : Env)
    (s : ModelTypeSerializer) (prefetchField : String) : Except Err FieldRule :=
  let attempt : Except Err FieldRule :=
    match s.modelCls.getField prefetchField with
    | none => .error (.fieldDoesNotExist prefetchField)
    | some modelField =>
      match modelField.relatedModel? with
      | none => .error .attributeError
      | some relatedName => do
        let relSerializer ← mkModelTypeSerializer env (env relatedName)
        let cls := relSerializer.baseSerializerCls
        pure (FieldRule.nested cls.clsName cls.metaFields cls.declaredFields false)
  match attempt with
  | .error (.fieldDoesNotExist _) => .ok (.plain propertyFieldSerializer)
  | r => r

/-- Assembly of the `PrefetchSerializer` class at the end of
`build_prefetch_serializer_tree`: `Meta.fields = field_names +
list(prefetch_fields.keys())` and class dict
`{**{'Meta'}, **concrete_fields, **forward_rel_fields, **prefetch_fields}`. -/
def mkPrefetchClsRepr (s : ModelTypeSerializer)
    (prefetchFields : List (String × FieldRule)) : SerializerClsRepr :=
  ⟨s.modelCls.name ++ "PrefetchSerializer",
   s.fieldNames ++ dictKeys prefetchFields,
   dictMerge (dictMerge (plainFields s.concreteFields) (plainFields s.forwardRelFields))
     prefetchFields⟩

mutual

/-- One iteration of the `for prefetch_tree in prefetch_trees` loop of
`build_prefetch_serializer_tree`, threading the `prefetch_fields` dict. -/
def buildPrefetchOne (env : Env) (s : ModelTypeSerializer)
    (acc : List (String × FieldRule)) : PrefetchTree →
    Except Err (List (String × FieldRule))
  | .leaf fieldName => do
    let r ← s.buildPrefetchSerializer env fieldName
    pure (dictInsert acc fieldName r)
  | .flat fieldNames =>
    fieldNames.foldlM (fun a n => do
      let r ← s.buildPrefetchSerializer env n
      pure (dictInsert a n r)) acc
  | .node entries => buildPrefetchNode env s acc entries
termination_by t => sizeOf t
decreasing_by all_goals simp_wf

/-- The `for k, v in prefetch_tree.items()` loop of the mapping case:
`get_field(k)` (a miss is NOT caught here), build the related model's
serializer, recursively expand `[v]` on it, and store the resulting nested
serializer under `model_field.name`. -/
def buildPrefetchNode (env : Env) (s : ModelTypeSerializer)
    (acc : List (String × FieldRule)) : List (String × PrefetchTree) →
    Except Err (List (String × FieldRule))
  | [] => .ok acc
  | (k, v) :: rest =>
    match s.modelCls.getField k with
    | none => .error (.fieldDoesNotExist k)
    | some modelField =>
      match modelField.relatedModel? with
      | none => .error .attributeError
      | some relatedName => do
        let relSerializer ← mkModelTypeSerializer env (env relatedName)
        let nestedPF ← buildPrefetchFields env relSerializer [] [v]
        let cls := mkPrefetchClsRepr relSerializer nestedPF
        buildPrefetchNode env s
          (dictInsert acc modelField.name
            (FieldRule.nested cls.clsName cls.metaFields cls.declaredFields false)) rest
termination_by es => sizeOf es
decreasing_by
  all_goals simp_wf
  all_goals
    have h1 : 1 ≤ sizeOf rest := by cases rest <;> simp_arith
  all_goals omega

/-- The `for prefetch_tree in prefetch_trees` loop, threading the
`prefetch_fields` dict through `buildPrefetchOne`. -/
def buildPrefetchFields (env : Env) (s : ModelTypeSerializer)
    (acc : List (String × FieldRule)) : List PrefetchTree →
    Except Err (List (String × FieldRule))
  | [] => .ok acc
  | t :: ts => do
    let acc' ← buildPrefetchOne env s acc t
    buildPrefetchFields env s acc' ts
termination_by ts => sizeOf ts
decreasing_by
  all_goals simp_wf
  all_goals omega

end

/-- `build_prefetch_serializer_tree(prefetch_trees)`. -/
def ModelTypeSerializer.buildPrefetchSerializerTree (env : Env)
    (s : ModelTypeSerializer) (prefetchTrees : List PrefetchTree) :
    Except Err SerializerClsRepr := do
  let prefetchFields ← buildPrefetchFields env s [] prefetchTrees
  pure (mkPrefetchClsRepr s prefetchFields)

/-! ## Type projection (`transpile/object_type.py`) -/

/-- The `allow_null` attribute of a serializer-field value: a nested
serializer instance constructed without kwargs has `allow_null = False`. -/
def FieldRule.allowNull : FieldRule → Bool
  | .plain fs => fs.allowNull
  | .nested _ _ _ _ => false

/-- The `read_only` attribute of a serializer-field value. -/
def FieldRule.readOnly : FieldRule → Bool
  | .plain fs => fs.readOnly
  | .nested _ _ _ _ => false

/-- One emitted member of the generated TypeScript type declaration.
Modelled from the spec: `render_type_declaration`
(django_typescript/transpile/common.py, not included in src/) renders the
data `{field name, optional flag, readonly flag, projected type tag}`
(§3 TypeDeclaration, §4.5). -/
structure TypeDeclaration where
  name : String
  optional : Bool
  readonly : Bool
  tsType : String
deriving DecidableEq, Repr

def renderTypeDeclaration (name : String) (optional readonly : Bool)
    (tsType : String) : TypeDeclaration :=
  ⟨name, optional, readonly, tsType⟩

/-- Modelled from the spec: `FieldTypeTranspiler.transpile`
(django_typescript/transpile/field_type.py, not included in src/) maps a
serializer rule to an external type tag with the fixed table of §4.5:
integer→number, string→string, boolean→boolean, nested marshaller→the nested
type's name, opaque/computed (JSON)→any, unresolved→unknown. -/
def fieldTypeTranspile : FieldRule → String
  | .plain fs =>
    match fs.fieldClass with
    | .integerField => "number"
    | .charField => "string"
    | .booleanField => "boolean"
    | .jsonField => "any"
    | .other _ => "unknown"
  | .nested clsName _ _ _ => clsName

/-- `ObjectTypeTranspiler.field_type_declarations`: iterate the serializer's
resolved field set in order, appending one rendered declaration per field
with `optional = field.allow_null` and `readonly = field.read_only`. -/
def fieldTypeDeclarations (serializerFields : List (String × FieldRule)) :
    List TypeDeclaration :=
  serializerFields.foldl
    (fun decls p =>
      decls ++ [renderTypeDeclaration p.1 p.2.allowNull p.2.readOnly
        (fieldTypeTranspile p.2)])
    []

/-! ## Dictionary lemmas -/

theorem find?_insertMap_self {α : Type} (k : String) (v : α) :
    ∀ d : List (String × α), d.any (fun p => p.1 = k) = true →
      (d.map (fun p => if p.1 = k then (k, v) else p)).find? (fun p => p.1 = k) =
        some (k, v) := by
  intro d h
  induction d with
  | nil => simp at h
  | cons p d ih =>
    by_cases hp : p.1 = k
    · simp [hp]
    · simp only [List.any_cons, Bool.or_eq_true, decide_eq_true_eq] at h
      rcases h with h | h
      · exact absurd h hp
      · simpa [hp] using ih h

theorem find?_insertMap_ne {α : Type} (k : String) (v : α) (k' : String)
    (hk : ¬ k' = k) (d : List (String × α)) :
    (d.map (fun p => if p.1 = k then (k, v) else p)).find? (fun p => p.1 = k') =
      d.find? (fun p => p.1 = k') := by
  induction d with
  | nil => simp
  | cons p d ih =>
    by_cases hp : p.1 = k
    · have h1 : ¬ (k = k') := fun h => hk h.symm
      have h2 : ¬ (p.1 = k') := by rw [hp]; exact h1
      simp [hp, h1, h2, ih]
    · by_cases hp' : p.1 = k'
      · rw [List.map_cons, if_neg hp, List.find?_cons_of_pos _ (by simpa using hp'),
          List.find?_cons_of_pos _ (by simpa using hp')]
      · rw [List.map_cons, if_neg hp, List.find?_cons_of_neg _ (by simpa using hp'),
          List.find?_cons_of_neg _ (by simpa using hp'), ih]

theorem dictGet_dictInsert_self {α : Type} (d : List (String × α)) (k : String) (v : α) :
    dictGet (dictInsert d k v) k = some v := by
  unfold dictGet dictInsert
  by_cases h : d.any (fun p => p.1 = k) = true
  · rw [if_pos h]
    rw [find?_insertMap_self k v d h]
    rfl
  · rw [if_neg h]
    rw [List.find?_append]
    have hnone : d.find? (fun p => p.1 = k) = none := by
      rw [List.find?_eq_none]
      intro x hx hxk
      exact h (List.any_eq_true.mpr ⟨x, hx, hxk⟩)
    simp [hnone]

theorem dictGet_dictInsert_ne {α : Type} (d : List (String × α)) (k : String) (v : α)
    (k' : String) (hk : k' ≠ k) :
    dictGet (dictInsert d k v) k' = dictGet d k' := by
  unfold dictGet dictInsert
  by_cases h : d.any (fun p => p.1 = k) = true
  · rw [if_pos h]
    rw [find?_insertMap_ne k v k' hk d]
  · rw [if_neg h]
    rw [List.find?_append]
    have h2 : ([(k, v)].find? (fun p => p.1 = k') : Option (String × α)) = none := by
      have hkk : ¬ (k = k') := fun hc => hk hc.symm
      simp [hkk]
    rw [h2]
    cases d.find? (fun p => p.1 = k') <;> rfl

theorem dictGet_eq_none_iff {α : Type} (d : List (String × α)) (k : String) :
    dictGet d k = none ↔ k ∉ dictKeys d := by
  unfold dictGet dictKeys
  simp only [Option.map_eq_none', List.find?_eq_none, List.mem_map, decide_eq_true_eq]
  constructor
  · rintro h ⟨p, hp, hpk⟩
    exact h p hp hpk
  · intro h p hp hpk
    exact h ⟨p, hp, hpk⟩

theorem dictKeys_dictInsert {α : Type} (d : List (String × α)) (k : String) (v : α) :
    dictKeys (dictInsert d k v) =
      if k ∈ dictKeys d then dictKeys d else dictKeys d ++ [k] := by
  unfold dictKeys dictInsert
  by_cases h : d.any (fun p => p.1 = k) = true
  · have hmem : k ∈ d.map (fun p => p.1) := by
      rcases List.any_eq_true.mp h with ⟨p, hp, hpk⟩
      exact List.mem_map.mpr ⟨p, hp, by simpa using hpk⟩
    rw [if_pos h, if_pos hmem, List.map_map]
    apply List.map_congr_left
    intro p _
    by_cases hp : p.1 = k
    · simp [hp]
    · simp [hp]
  · have hmem : k ∉ d.map (fun p => p.1) := by
      intro hc
      rcases List.mem_map.mp hc with ⟨p, hp, hpk⟩
      exact h (List.any_eq_true.mpr ⟨p, hp, by simpa using hpk⟩)
    rw [if_neg h, if_neg hmem]
    simp

theorem dictKeys_nodup_dictInsert {α : Type} (d : List (String × α)) (k : String) (v : α)
    (h : (dictKeys d).Nodup) : (dictKeys (dictInsert d k v)).Nodup := by
  rw [dictKeys_dictInsert]
  by_cases hk : k ∈ dictKeys d
  · simpa [hk] using h
  · simp only [hk, if_false]
    simp [List.nodup_append, h, hk]

theorem dictGet_dictMerge_of_none {α : Type} (b : List (String × α)) :
    ∀ (a : List (String × α)) (k : String), dictGet b k = none →
      dictGet (dictMerge a b) k = dictGet a k := by
  induction b with
  | nil => intro a k _; rfl
  | cons p b ih =>
    intro a k h
    have hpk : ¬ p.1 = k := by
      intro hpk
      unfold dictGet at h
      simp [List.find?_cons_of_pos, hpk] at h
    have htail : dictGet b k = none := by
      unfold dictGet at h ⊢
      rwa [List.find?_cons_of_neg] at h
      simpa using hpk
    unfold dictMerge at ih ⊢
    rw [List.foldl_cons]
    rw [ih (dictInsert a p.1 p.2) k htail]
    exact dictGet_dictInsert_ne a p.1 p.2 k (fun hc => hpk hc.symm)

theorem dictGet_dictMerge_of_some {α : Type} (b : List (String × α)) :
    ∀ (a : List (String × α)) (k : String) (v : α), (dictKeys b).Nodup →
      dictGet b k = some v → dictGet (dictMerge a b) k = some v := by
  induction b with
  | nil => intro a k v _ h; simp [dictGet] at h
  | cons p b ih =>
    intro a k v hnd h
    have hnd' : (dictKeys b).Nodup := (List.nodup_cons.mp hnd).2
    by_cases hpk : p.1 = k
    · have hv : v = p.2 := by
        unfold dictGet at h
        rw [List.find?_cons_of_pos _ (by simpa using hpk)] at h
        simpa using h.symm
      have hknb : k ∉ dictKeys b := by
        have := (List.nodup_cons.mp hnd).1
        rwa [← hpk] at *
      have htail : dictGet b k = none := (dictGet_eq_none_iff b k).mpr hknb
      unfold dictMerge at ih ⊢
      rw [List.foldl_cons]
      have := dictGet_dictMerge_of_none b (dictInsert a p.1 p.2) k htail
      unfold dictMerge at this
      rw [this, hpk, hv]
      exact dictGet_dictInsert_self a k p.2
    · have htail : dictGet b k = some v := by
        unfold dictGet at h ⊢
        rwa [List.find?_cons_of_neg _ (by simpa using hpk)] at h
      unfold dictMerge at ih ⊢
      rw [List.foldl_cons]
      exact ih (dictInsert a p.1 p.2) k v hnd' htail

/-! ## Lemmas about validator invocation -/

theorem mem_callArgs {v : ModelTypeValidator} {m : AttrsDict} {p : String} {x : Value}
    (h : (p, x) ∈ v.callArgs m) :
    p ∈ v.validatorFieldNames ∧ dictGet m p = some x := by
  unfold ModelTypeValidator.callArgs at h
  rcases List.mem_filterMap.mp h with ⟨q, hq, hmap⟩
  rcases Option.map_eq_some'.mp hmap with ⟨y, hy, heq⟩
  cases heq
  exact ⟨hq, hy⟩

theorem dictGet_filterMapArgs_of_not_mem (m : AttrsDict) (p : String) (ps : List String)
    (h : p ∉ ps) :
    dictGet (ps.filterMap (fun q => (dictGet m q).map (fun x => (q, x)))) p = none := by
  rw [dictGet_eq_none_iff]
  intro hc
  rcases List.mem_map.mp hc with ⟨r, hr, hrk⟩
  rcases List.mem_filterMap.mp hr with ⟨q, hq, hmap⟩
  rcases Option.map_eq_some'.mp hmap with ⟨y, _, heq⟩
  subst heq
  exact h (hrk ▸ hq)

theorem dictGet_callArgs_of_not_mem (v : ModelTypeValidator) (m : AttrsDict) (p : String)
    (h : p ∉ v.validatorFieldNames) : dictGet (v.callArgs m) p = none :=
  dictGet_filterMapArgs_of_not_mem m p v.validatorFieldNames h

theorem dictGet_cons_self {α : Type} (k : String) (v : α) (d : List (String × α)) :
    dictGet ((k, v) :: d) k = some v := by
  unfold dictGet
  rw [List.find?_cons_of_pos _ (by simp)]
  rfl

theorem dictGet_cons_ne {α : Type} (k : String) (v : α) (d : List (String × α))
    (k' : String) (h : ¬ k = k') : dictGet ((k, v) :: d) k' = dictGet d k' := by
  unfold dictGet
  rw [List.find?_cons_of_neg _ (by simpa using h)]

theorem dictGet_filterMapArgs_of_mem (m : AttrsDict) (p : String) :
    ∀ ps : List String, ps.Nodup → p ∈ ps →
      dictGet (ps.filterMap (fun q => (dictGet m q).map (fun x => (q, x)))) p =
        dictGet m p := by
  intro ps
  induction ps with
  | nil => intro _ h; simp at h
  | cons q ps ih =>
    intro hnd hp
    rcases List.nodup_cons.mp hnd with ⟨hqn, hnd'⟩
    rw [List.filterMap_cons]
    by_cases hqp : q = p
    · subst hqp
      cases hq : dictGet m q with
      | none =>
        simp only [Option.map_none']
        exact dictGet_filterMapArgs_of_not_mem m q ps hqn
      | some y =>
        simp only [Option.map_some']
        rw [dictGet_cons_self]
    · have hp' : p ∈ ps := by
        rcases List.mem_cons.mp hp with h | h
        · exact absurd h.symm hqp
        · exact h
      cases hq : dictGet m q with
      | none =>
        simp only [Option.map_none']
        exact ih hnd' hp'
      | some y =>
        simp only [Option.map_some']
        rw [dictGet_cons_ne q y _ p hqp]
        exact ih hnd' hp'

theorem dictGet_callArgs_of_mem (v : ModelTypeValidator) (m : AttrsDict) (p : String)
    (hnd : v.validatorFieldNames.Nodup) (hp : p ∈ v.validatorFieldNames) :
    dictGet (v.callArgs m) p = dictGet m p :=
  dictGet_filterMapArgs_of_mem m p v.validatorFieldNames hnd hp

/-! ## Lemmas about the partial-update backfill -/

theorem backfillGo_preserves (ia : String → Value) (p : String) (x : Value) :
    ∀ (ps : List String) (a : AttrsDict), dictGet a p = some x →
      dictGet (ps.foldl
        (fun a q => if (dictGet a q).isNone then dictInsert a q (ia q) else a) a) p =
        some x := by
  intro ps
  induction ps with
  | nil => intro a h; exact h
  | cons q ps ih =>
    intro a h
    rw [List.foldl_cons]
    apply ih
    by_cases hq : (dictGet a q).isNone
    · rw [if_pos hq]
      have hpq : p ≠ q := by
        intro hc
        rw [hc] at h
        rw [h] at hq
        simp at hq
      rw [dictGet_dictInsert_ne a q (ia q) p hpq]
      exact h
    · rw [if_neg hq]
      exact h

theorem backfillGo_sets (ia : String → Value) (p : String) :
    ∀ (ps : List String) (a : AttrsDict), p ∈ ps → dictGet a p = none →
      dictGet (ps.foldl
        (fun a q => if (dictGet a q).isNone then dictInsert a q (ia q) else a) a) p =
        some (ia p) := by
  intro ps
  induction ps with
  | nil => intro a hp _; simp at hp
  | cons q ps ih =>
    intro a hp h
    rw [List.foldl_cons]
    by_cases hqp : q = p
    · subst hqp
      rw [if_pos (by simp [h])]
      exact backfillGo_preserves ia q (ia q) ps (dictInsert a q (ia q))
        (dictGet_dictInsert_self a q (ia q))
    · have hp' : p ∈ ps := by
        rcases List.mem_cons.mp hp with hc | hc
        · exact absurd hc.symm hqp
        · exact hc
      apply ih _ hp'
      by_cases hq : (dictGet a q).isNone
      · rw [if_pos hq, dictGet_dictInsert_ne a q (ia q) p (fun hc => hqp hc.symm)]
        exact h
      · rw [if_neg hq]
        exact h

theorem dictGet_backfill_of_mem (v : ModelTypeValidator) (ia : String → Value)
    (attrs : AttrsDict) (p : String) (hp : p ∈ v.validatorFieldNames)
    (h : dictGet attrs p = none) :
    dictGet (backfillValidatorParams v ia attrs) p = some (ia p) :=
  backfillGo_sets ia p v.validatorFieldNames attrs hp h

theorem dictGet_backfill_of_some (v : ModelTypeValidator) (ia : String → Value)
    (attrs : AttrsDict) (p : String) (x : Value) (h : dictGet attrs p = some x) :
    dictGet (backfillValidatorParams v ia attrs) p = some x :=
  backfillGo_preserves ia p x v.validatorFieldNames attrs h

/-! ## Lemmas about forward-relation resolution and the validate closure -/

theorem exceptBind_ok {ε α β : Type} (x : Except ε α) (f : α → Except ε β) (b : β)
    (h : (x >>= f) = .ok b) : ∃ a, x = .ok a ∧ f a = .ok b := by
  cases x with
  | error e =>
    simp only [Bind.bind, Except.bind] at h
    exact Except.noConfusion h
  | ok a => exact ⟨a, rfl, by simpa only [Bind.bind, Except.bind] using h⟩

theorem resolveGo_error_shape (s : ModelTypeSerializer) (v : ModelTypeValidator)
    (db : DB) :
    ∀ (data acc : AttrsDict) (e : Err),
      resolveForwardRelationsGo s v db data acc = .error e →
      ∃ mn, e = .doesNotExist mn := by
  intro data
  induction data with
  | nil => intro acc e h; simp [resolveForwardRelationsGo] at h
  | cons p rest ih =>
    intro acc e h
    obtain ⟨k, val⟩ := p
    simp only [resolveForwardRelationsGo] at h
    cases hmf : dictGet s.forwardRelModelFields k with
    | none =>
      simp only [hmf] at h
      exact ih acc e h
    | some mf =>
      simp only [hmf] at h
      by_cases hv0 : val = Value.none_
      · rw [if_pos hv0] at h
        exact ih acc e h
      · rw [if_neg hv0] at h
        by_cases hn : mf.name ∈ v.validatorFieldNames
        · rw [if_pos hn] at h
          cases hdb : db mf.relatedModelName val with
          | none =>
            simp only [hdb] at h
            injection h with h'
            exact ⟨mf.relatedModelName, h'.symm⟩
          | some inst =>
            simp only [hdb] at h
            exact ih _ e h
        · rw [if_neg hn] at h
          exact ih acc e h

theorem resolveGo_nodup (s : ModelTypeSerializer) (v : ModelTypeValidator) (db : DB) :
    ∀ (data acc r : AttrsDict),
      resolveForwardRelationsGo s v db data acc = .ok r →
      (dictKeys acc).Nodup → (dictKeys r).Nodup := by
  intro data
  induction data with
  | nil =>
    intro acc r h hnd
    simp only [resolveForwardRelationsGo] at h
    injection h with h'
    exact h' ▸ hnd
  | cons p rest ih =>
    intro acc r h hnd
    obtain ⟨k, val⟩ := p
    simp only [resolveForwardRelationsGo] at h
    cases hmf : dictGet s.forwardRelModelFields k with
    | none =>
      simp only [hmf] at h
      exact ih acc r h hnd
    | some mf =>
      simp only [hmf] at h
      by_cases hv0 : val = Value.none_
      · rw [if_pos hv0] at h
        exact ih acc r h hnd
      · rw [if_neg hv0] at h
        by_cases hn : mf.name ∈ v.validatorFieldNames
        · rw [if_pos hn] at h
          cases hdb : db mf.relatedModelName val with
          | none =>
            simp only [hdb] at h
            exact Except.noConfusion h
          | some inst =>
            simp only [hdb] at h
            exact ih _ r h (dictKeys_nodup_dictInsert acc mf.name inst hnd)
        · rw [if_neg hn] at h
          exact ih acc r h hnd

theorem validate_ok_args (v : ModelTypeValidator) (kwargs args : AttrsDict)
    (h : v.validate kwargs = .ok args) : args = v.callArgs kwargs := by
  unfold ModelTypeValidator.validate at h
  cases hchk : v.validateFunc.check (v.callArgs kwargs) with
  | some msg =>
    rw [hchk] at h
    exact Except.noConfusion h
  | none =>
    rw [hchk] at h
    injection h with h'
    exact h'.symm

theorem serializerValidate_ok_inversion (s : ModelTypeSerializer)
    (v : ModelTypeValidator) (db : DB) (pu : Bool) (ia : String → Value)
    (attrs : AttrsDict) (t : ValidateTrace)
    (hv : s.validator = some v) (h : serializerValidate s db pu ia attrs = .ok t) :
    ∃ resolved, resolveValidatorForwardRelations s v db attrs = .ok resolved ∧
      t.result = (if pu then backfillValidatorParams v ia attrs else attrs) ∧
      t.calledArgs = some (v.callArgs (dictMerge t.result resolved)) := by
  unfold serializerValidate at h
  rw [hv] at h
  rcases exceptBind_ok _ _ _ h with ⟨resolved, hres, h2⟩
  rcases exceptBind_ok _ _ _ h2 with ⟨called, hcall, h3⟩
  simp only [pure, Except.pure] at h3
  injection h3 with h3'
  refine ⟨resolved, hres, ?_, ?_⟩
  · rw [← h3']
  · rw [← h3']
    simp only
    rw [validate_ok_args v _ called hcall]

theorem exceptBind_error {ε α β : Type} (x : Except ε α) (f : α → Except ε β) (e : ε)
    (h : (x >>= f) = .error e) : x = .error e ∨ ∃ a, x = .ok a ∧ f a = .error e := by
  cases x with
  | error e' =>
    left
    simp only [Bind.bind, Except.bind] at h
    injection h with h'
    rw [h']
  | ok a => exact .inr ⟨a, rfl, by simpa only [Bind.bind, Except.bind] using h⟩

theorem resolveGo_preserves (s : ModelTypeSerializer) (v : ModelTypeValidator)
    (db : DB) (mf : ForwardRelField) (k : String) (instVal : Value)
    (hinj : ∀ k' mf', dictGet s.forwardRelModelFields k' = some mf' →
      mf'.name = mf.name → k' = k) :
    ∀ (data acc r : AttrsDict),
      resolveForwardRelationsGo s v db data acc = .ok r →
      dictGet acc mf.name = some instVal →
      (∀ k2 v2, (k2, v2) ∈ data → k2 ≠ k) →
      dictGet r mf.name = some instVal := by
  intro data
  induction data with
  | nil =>
    intro acc r h hacc _
    simp only [resolveForwardRelationsGo] at h
    injection h with h'
    exact h' ▸ hacc
  | cons p rest ih =>
    intro acc r h hacc hne
    obtain ⟨k2, v2⟩ := p
    have hk2 : k2 ≠ k := hne k2 v2 (List.mem_cons_self _ _)
    have hne' : ∀ k3 v3, (k3, v3) ∈ rest → k3 ≠ k := fun k3 v3 hm =>
      hne k3 v3 (List.mem_cons_of_mem _ hm)
    simp only [resolveForwardRelationsGo] at h
    cases hmf2 : dictGet s.forwardRelModelFields k2 with
    | none =>
      simp only [hmf2] at h
      exact ih acc r h hacc hne'
    | some mf2 =>
      simp only [hmf2] at h
      by_cases hv0 : v2 = Value.none_
      · rw [if_pos hv0] at h
        exact ih acc r h hacc hne'
      · rw [if_neg hv0] at h
        by_cases hn : mf2.name ∈ v.validatorFieldNames
        · rw [if_pos hn] at h
          cases hdb2 : db mf2.relatedModelName v2 with
          | none =>
            simp only [hdb2] at h
            exact Except.noConfusion h
          | some inst2 =>
            simp only [hdb2] at h
            have hnm : mf2.name ≠ mf.name := fun hc => hk2 (hinj k2 mf2 hmf2 hc)
            have hkeep : dictGet (dictInsert acc mf2.name inst2) mf.name = some instVal := by
              rw [dictGet_dictInsert_ne acc mf2.name inst2 mf.name (fun hc => hnm hc.symm)]
              exact hacc
            exact ih _ r h hkeep hne'
        · rw [if_neg hn] at h
          exact ih acc r h hacc hne'

theorem resolveGo_finds (s : ModelTypeSerializer) (v : ModelTypeValidator) (db : DB)
    (mf : ForwardRelField) (k : String) (val instVal : Value)
    (hmf : dictGet s.forwardRelModelFields k = some mf)
    (hval : val ≠ Value.none_)
    (hname : mf.name ∈ v.validatorFieldNames)
    (hdb : db mf.relatedModelName val = some instVal)
    (hinj : ∀ k' mf', dictGet s.forwardRelModelFields k' = some mf' →
      mf'.name = mf.name → k' = k) :
    ∀ (data acc r : AttrsDict),
      resolveForwardRelationsGo s v db data acc = .ok r →
      (k, val) ∈ data → (dictKeys data).Nodup →
      dictGet r mf.name = some instVal := by
  intro data
  induction data with
  | nil => intro acc r _ hm _; simp at hm
  | cons p rest ih =>
    intro acc r h hm hnd
    obtain ⟨k2, v2⟩ := p
    have hnd2 : (k2 :: dictKeys rest).Nodup := hnd
    have hndk : k2 ∉ dictKeys rest := (List.nodup_cons.mp hnd2).1
    have hndr : (dictKeys rest).Nodup := (List.nodup_cons.mp hnd2).2
    rcases List.mem_cons.mp hm with heq | hm'
    · injection heq with h1 h2
      subst h1
      subst h2
      simp only [resolveForwardRelationsGo] at h
      simp only [hmf] at h
      rw [if_neg hval, if_pos hname] at h
      simp only [hdb] at h
      apply resolveGo_preserves s v db mf k instVal hinj rest _ r h
        (dictGet_dictInsert_self acc mf.name instVal)
      intro k3 v3 hm3 hc
      subst hc
      exact hndk (List.mem_map.mpr ⟨(k3, v3), hm3, rfl⟩)
    · have hk2 : k2 ≠ k := by
        intro hc
        subst hc
        exact hndk (List.mem_map.mpr ⟨(k2, val), hm', rfl⟩)
      simp only [resolveForwardRelationsGo] at h
      cases hmf2 : dictGet s.forwardRelModelFields k2 with
      | none =>
        simp only [hmf2] at h
        exact ih acc r h hm' hndr
      | some mf2 =>
        simp only [hmf2] at h
        by_cases hv0 : v2 = Value.none_
        · rw [if_pos hv0] at h
          exact ih acc r h hm' hndr
        · rw [if_neg hv0] at h
          by_cases hn : mf2.name ∈ v.validatorFieldNames
          · rw [if_pos hn] at h
            cases hdb2 : db mf2.relatedModelName v2 with
            | none =>
              simp only [hdb2] at h
              exact Except.noConfusion h
            | some inst2 =>
              simp only [hdb2] at h
              exact ih _ r h hm' hndr
          · rw [if_neg hn] at h
            exact ih acc r h hm' hndr

theorem serializerValidate_no_config_error (s : ModelTypeSerializer) (db : DB)
    (pu : Bool) (ia : String → Value) (attrs : AttrsDict) (msg : String) :
    serializerValidate s db pu ia attrs ≠ .error (.configurationError msg) := by
  intro h
  unfold serializerValidate at h
  cases hv : s.validator with
  | none =>
    rw [hv] at h
    exact Except.noConfusion h
  | some v =>
    rw [hv] at h
    rcases exceptBind_error _ _ _ h with herr | ⟨resolved, _, h2⟩
    · unfold resolveValidatorForwardRelations at herr
      obtain ⟨mn, hmn⟩ := resolveGo_error_shape s v db attrs [] _ herr
      exact Err.noConfusion hmn
    · rcases exceptBind_error _ _ _ h2 with herr2 | ⟨called, _, h3⟩
      · unfold ModelTypeValidator.validate at herr2
        cases hchk : v.validateFunc.check
            (v.callArgs (dictMerge
              (if pu then backfillValidatorParams v ia attrs else attrs) resolved)) with
        | some m =>
          rw [hchk] at herr2
          injection herr2 with herr2'
          exact Err.noConfusion herr2'
        | none =>
          rw [hchk] at herr2
          exact Except.noConfusion herr2
      · simp only [pure, Except.pure] at h3
        exact Except.noConfusion h3

/-! ## Construction-time decomposition lemmas -/

/-- With no one-to-one proxy configuration, `_build_fields` cannot raise, and
the built field groups are the evaluated folds. -/
theorem buildSerializerCore_noProxy (env : Env) (m : ModelClass)
    (vf : Option ValidateFunc) (kw : List (String × Kwargs))
    (pn : Option (List String)) :
    buildSerializerCore env m vf kw none pn = .ok
      { modelCls := m
        validator := vf.map mkModelTypeValidator
        serializerFieldKwargs := kw
        concreteFields := m.concreteFields.foldl
          (fun d f => dictInsert d f.name (buildConcreteFieldSerializer kw f)) []
        propertyFields := (pn.getD []).foldl
          (fun d n => dictInsert d n propertyFieldSerializer) []
        forwardRelFields := (m.forwardRelationFields.foldl
          (fun (pr : List (String × FieldSerializer) × List (String × ForwardRelField)) f =>
            (dictInsert pr.1 f.attname
               ⟨resolveForwardRelFieldType f.relatedPk, forwardRelFieldKwargs kw f⟩,
             dictInsert pr.2 f.attname f)) ([], [])).1
        forwardRelModelFields := (m.forwardRelationFields.foldl
          (fun (pr : List (String × FieldSerializer) × List (String × ForwardRelField)) f =>
            (dictInsert pr.1 f.attname
               ⟨resolveForwardRelFieldType f.relatedPk, forwardRelFieldKwargs kw f⟩,
             dictInsert pr.2 f.attname f)) ([], [])).2 } := rfl

/-- `__init__` decomposes into field building followed by
`_check_validate_func`. -/
theorem mkModelTypeSerializer_eq_check (env : Env) (m : ModelClass)
    (vf : Option ValidateFunc) (kw : List (String × Kwargs))
    (proxies : Option (List (String × List String))) (pn : Option (List String))
    (s : ModelTypeSerializer)
    (hcore : buildSerializerCore env m vf kw proxies pn = .ok s) :
    mkModelTypeSerializer env m vf kw proxies pn =
      match s.validator with
      | some v =>
        if v.validatorFieldNames.all (fun p => p ∈ s.allowedValidatorFieldNames)
        then .ok s
        else .error (.configurationError configurationErrorMsg)
      | none => .ok s := by
  unfold mkModelTypeSerializer
  rw [hcore]
  simp only [Bind.bind, Except.bind]
  cases s.validator with
  | some v => rfl
  | none => rfl

/-! ## Claim C1 -/

/-- C1: for every validator callable bound at marshaller construction, if any
parameter name is outside the union of concrete field names,
forward-relation attnames and forward-relation model-field logical names,
construction raises the configuration error at build time (and only then);
the request-time `validate` closure never raises this error. -/
theorem validator_params_checked_at_build_time
    (env : Env) (m : ModelClass) (f : ValidateFunc) (kw : List (String × Kwargs))
    (pn : Option (List String)) (s : ModelTypeSerializer)
    (hcore : buildSerializerCore env m (some f) kw none pn = .ok s) :
    (mkModelTypeSerializer env m (some f) kw none pn =
        .error (.configurationError configurationErrorMsg) ↔
      ∃ p ∈ f.params, p ∉ s.allowedValidatorFieldNames) ∧
    (∀ e, mkModelTypeSerializer env m (some f) kw none pn = .error e →
      e = .configurationError configurationErrorMsg) ∧
    (∀ (s' : ModelTypeSerializer) (db : DB) (pu : Bool) (ia : String → Value)
      (attrs : AttrsDict) (msg : String),
      serializerValidate s' db pu ia attrs ≠ .error (.configurationError msg)) := by
  have hval : s.validator = some (mkModelTypeValidator f) := by
    rw [buildSerializerCore_noProxy] at hcore
    injection hcore with hcore'
    rw [← hcore']
    rfl
  have hmk := mkModelTypeSerializer_eq_check env m (some f) kw none pn s hcore
  have hmk2 : mkModelTypeSerializer env m (some f) kw none pn =
      (if (mkModelTypeValidator f).validatorFieldNames.all
          (fun p => p ∈ s.allowedValidatorFieldNames) then Except.ok s
       else .error (.configurationError configurationErrorMsg)) := by
    rw [hmk, hval]
  have hnames : (mkModelTypeValidator f).validatorFieldNames = f.params := rfl
  refine ⟨?_, ?_, ?_⟩
  · rw [hmk2]
    by_cases hall : (mkModelTypeValidator f).validatorFieldNames.all
        (fun p => p ∈ s.allowedValidatorFieldNames) = true
    · rw [if_pos hall]
      constructor
      · intro hc
        exact Except.noConfusion hc
      · rintro ⟨p, hp, hnp⟩
        rw [hnames] at hall
        rw [List.all_eq_true] at hall
        exact absurd (by simpa using hall p hp) hnp
    · rw [if_neg hall]
      constructor
      · intro _
        rw [hnames] at hall
        have hnf : ¬ ∀ p ∈ f.params, p ∈ s.allowedValidatorFieldNames := by
          intro hforall
          exact hall (List.all_eq_true.mpr (fun p hp => by simpa using hforall p hp))
        push_neg at hnf
        exact hnf
      · intro _
        rfl
  · intro e he
    rw [hmk2] at he
    by_cases hall : (mkModelTypeValidator f).validatorFieldNames.all
        (fun p => p ∈ s.allowedValidatorFieldNames) = true
    · rw [if_pos hall] at he
      exact Except.noConfusion he
    · rw [if_neg hall] at he
      injection he with he'
      rw [he']
  · intro s' db pu ia attrs msg
    exact serializerValidate_no_config_error s' db pu ia attrs msg

def c1Model : ModelClass :=
  ⟨"Book", [⟨"title", false, some .charField, (.charField, [])⟩], []⟩

def c1Env : Env := fun _ => c1Model

def c1Func : ValidateFunc := ⟨["zzz"], fun _ => none⟩

def c1Serializer : ModelTypeSerializer :=
  ⟨c1Model, some (mkModelTypeValidator c1Func), [],
   [("title", ⟨.charField, [("required", .bool true)]⟩)], [], [], []⟩

/-- Witness for C1 at a concrete model: binding a validator whose parameter
`zzz` is no field name errors exactly because `zzz` is outside the allowed
names. -/
theorem validator_params_checked_at_build_time_witness :
    mkModelTypeSerializer c1Env c1Model (some c1Func) [] none none =
        .error (.configurationError configurationErrorMsg) ↔
      ∃ p ∈ c1Func.params, p ∉ c1Serializer.allowedValidatorFieldNames :=
  (validator_params_checked_at_build_time c1Env c1Model c1Func [] none
    c1Serializer rfl).1

/-! ## Claim C2 -/

/-- C2: at validate time, the bound validator callable is invoked with
exactly its bound parameter names: every keyword argument it receives is a
bound parameter (no extra kwargs for other attrs keys), and the argument
dict is the merge of (backfilled) attrs with the resolved relations,
restricted to the bound names. -/
theorem validator_called_with_exactly_bound_params
    (s : ModelTypeSerializer) (v : ModelTypeValidator) (db : DB) (pu : Bool)
    (ia : String → Value) (attrs : AttrsDict) (t : ValidateTrace) (args : AttrsDict)
    (hv : s.validator = some v)
    (h : serializerValidate s db pu ia attrs = .ok t)
    (ha : t.calledArgs = some args) :
    (∀ p x, (p, x) ∈ args → p ∈ v.validatorFieldNames) ∧
    (∀ p, p ∉ v.validatorFieldNames → dictGet args p = none) ∧
    (∃ resolved, resolveValidatorForwardRelations s v db attrs = .ok resolved ∧
      args = v.callArgs (dictMerge
        (if pu then backfillValidatorParams v ia attrs else attrs) resolved)) := by
  rcases serializerValidate_ok_inversion s v db pu ia attrs t hv h with
    ⟨resolved, hres, hresult, hargs⟩
  rw [hresult] at hargs
  rw [ha] at hargs
  injection hargs with hargs'
  subst hargs'
  refine ⟨?_, ?_, ⟨resolved, hres, rfl⟩⟩
  · intro p x hm
    exact (mem_callArgs hm).1
  · intro p hp
    exact dictGet_callArgs_of_not_mem v _ p hp

def c2Func : ValidateFunc := ⟨["a"], fun _ => none⟩

def c2V : ModelTypeValidator := mkModelTypeValidator c2Func

def c2S : ModelTypeSerializer :=
  ⟨⟨"M", [], []⟩, some c2V, [], [("a", ⟨.integerField, []⟩)], [], [], []⟩

def c2Db : DB := fun _ _ => none

def c2Attrs : AttrsDict := [("a", .int 1), ("b", .int 2)]

/-- Witness for C2: with bound parameter `a` and attrs `{a: 1, b: 2}`, the
validator receives exactly `{a: 1}` — the key `b` is not passed. -/
theorem validator_called_with_exactly_bound_params_witness :
    (∀ p x, (p, x) ∈ ([("a", Value.int 1)] : AttrsDict) →
      p ∈ c2V.validatorFieldNames) ∧
    (∀ p, p ∉ c2V.validatorFieldNames →
      dictGet ([("a", Value.int 1)] : AttrsDict) p = none) ∧
    (∃ resolved, resolveValidatorForwardRelations c2S c2V c2Db c2Attrs = .ok resolved ∧
      ([("a", Value.int 1)] : AttrsDict) = c2V.callArgs (dictMerge
        (if false then backfillValidatorParams c2V (fun _ => .none_) c2Attrs
         else c2Attrs) resolved)) :=
  validator_called_with_exactly_bound_params c2S c2V c2Db false (fun _ => .none_)
    c2Attrs ⟨some [("a", Value.int 1)], c2Attrs⟩ [("a", Value.int 1)] rfl rfl rfl

/-! ## Claim C3 -/

/-- C3: on a partial-update decode, every bound validator parameter absent
from the supplied attrs is backfilled with the current persisted value from
the existing instance before the validator is invoked, and (when the
parameter is not shadowed by a resolved relation) the validator receives
that backfilled value. -/
theorem partial_update_backfills_missing_validator_params
    (s : ModelTypeSerializer) (v : ModelTypeValidator) (db : DB)
    (ia : String → Value) (attrs : AttrsDict) (t : ValidateTrace) (args : AttrsDict)
    (p : String)
    (hv : s.validator = some v)
    (hnd : v.validatorFieldNames.Nodup)
    (hp : p ∈ v.validatorFieldNames)
    (habs : dictGet attrs p = none)
    (h : serializerValidate s db true ia attrs = .ok t)
    (ha : t.calledArgs = some args)
    (hnores : ∀ resolved, resolveValidatorForwardRelations s v db attrs = .ok resolved →
      dictGet resolved p = none) :
    dictGet t.result p = some (ia p) ∧ dictGet args p = some (ia p) := by
  rcases serializerValidate_ok_inversion s v db true ia attrs t hv h with
    ⟨resolved, hres, hresult, hargs⟩
  have hresP : dictGet resolved p = none := hnores resolved hres
  have hback : dictGet (backfillValidatorParams v ia attrs) p = some (ia p) :=
    dictGet_backfill_of_mem v ia attrs p hp habs
  have hres2 : t.result = backfillValidatorParams v ia attrs := by
    rw [hresult]
    rfl
  constructor
  · rw [hres2]
    exact hback
  · rw [ha] at hargs
    injection hargs with hargs'
    subst hargs'
    rw [dictGet_callArgs_of_mem v _ p hnd hp]
    rw [dictGet_dictMerge_of_none resolved t.result p hresP]
    rw [hres2]
    exact hback

def c3Func : ValidateFunc := ⟨["a", "b"], fun _ => none⟩

def c3V : ModelTypeValidator := mkModelTypeValidator c3Func

def c3S : ModelTypeSerializer :=
  ⟨⟨"M", [], []⟩, some c3V, [],
   [("a", ⟨.integerField, []⟩), ("b", ⟨.integerField, []⟩)], [], [], []⟩

def c3Db : DB := fun _ _ => none

def c3Ia : String → Value := fun n => if n = "a" then .int 5 else .int 0

def c3Attrs : AttrsDict := [("b", .int 2)]

/-- Witness for C3 at the spec's example: existing instance has `a = 5`, a
partial decode supplies only `b = 2`, and the validator needing `a` and `b`
receives `a = 5` (with `b = 2` present as supplied). -/
theorem partial_update_backfills_missing_validator_params_witness :
    dictGet (ValidateTrace.mk (some [("a", Value.int 5), ("b", Value.int 2)])
        [("b", Value.int 2), ("a", Value.int 5)]).result "a" = some (Value.int 5) ∧
    dictGet ([("a", Value.int 5), ("b", Value.int 2)] : AttrsDict) "a" =
      some (Value.int 5) :=
  partial_update_backfills_missing_validator_params c3S c3V c3Db c3Ia c3Attrs
    ⟨some [("a", Value.int 5), ("b", Value.int 2)],
     [("b", Value.int 2), ("a", Value.int 5)]⟩
    [("a", Value.int 5), ("b", Value.int 2)] "a" rfl (by decide) (by decide)
    rfl rfl rfl
    (by
      intro resolved hres
      cases hres
      rfl)

/-! ## Claim C4 -/

theorem dictGet_singleton_inv {α : Type} (a : String) (x : α) (k : String) (y : α)
    (h : dictGet [(a, x)] k = some y) : k = a ∧ y = x := by
  unfold dictGet at h
  by_cases hk : a = k
  · subst hk
    rw [List.find?_cons_of_pos _ (by simp)] at h
    simp at h
    exact ⟨rfl, h.symm⟩
  · rw [List.find?_cons_of_neg _ (by simpa using hk)] at h
    simp at h

/-- C4: during validator invocation, an attrs key that is a forward-relation
attname with a non-null value, whose relation's logical field name is a
bound validator parameter, is resolved through the storage lookup into the
related instance, and the validator receives that instance keyed by the
model field's logical name. -/
theorem validator_receives_resolved_relation_instances
    (s : ModelTypeSerializer) (v : ModelTypeValidator) (db : DB) (pu : Bool)
    (ia : String → Value) (attrs : AttrsDict) (t : ValidateTrace) (args : AttrsDict)
    (k : String) (val instVal : Value) (mf : ForwardRelField)
    (hv : s.validator = some v)
    (hm : (k, val) ∈ attrs)
    (hndA : (dictKeys attrs).Nodup)
    (hmf : dictGet s.forwardRelModelFields k = some mf)
    (hval : val ≠ Value.none_)
    (hname : mf.name ∈ v.validatorFieldNames)
    (hndP : v.validatorFieldNames.Nodup)
    (hinj : ∀ k' mf', dictGet s.forwardRelModelFields k' = some mf' →
      mf'.name = mf.name → k' = k)
    (hdb : db mf.relatedModelName val = some instVal)
    (h : serializerValidate s db pu ia attrs = .ok t)
    (ha : t.calledArgs = some args) :
    (∃ resolved, resolveValidatorForwardRelations s v db attrs = .ok resolved ∧
      dictGet resolved mf.name = some instVal) ∧
    dictGet args mf.name = some instVal := by
  rcases serializerValidate_ok_inversion s v db pu ia attrs t hv h with
    ⟨resolved, hres, hresult, hargs⟩
  have hfound : dictGet resolved mf.name = some instVal := by
    apply resolveGo_finds s v db mf k val instVal hmf hval hname hdb hinj attrs []
      resolved ?_ hm hndA
    exact hres
  have hndR : (dictKeys resolved).Nodup := by
    apply resolveGo_nodup s v db attrs [] resolved ?_ (by simp [dictKeys])
    exact hres
  refine ⟨⟨resolved, hres, hfound⟩, ?_⟩
  rw [ha] at hargs
  injection hargs with hargs'
  subst hargs'
  rw [dictGet_callArgs_of_mem v _ mf.name hndP hname]
  exact dictGet_dictMerge_of_some resolved t.result mf.name instVal hndR hfound

def c4Mf : ForwardRelField :=
  ⟨"author", false, false, false, false, [], "Author", .autoField, "Post",
   (.integerField, [])⟩

def c4Func : ValidateFunc := ⟨["author"], fun _ => none⟩

def c4V : ModelTypeValidator := mkModelTypeValidator c4Func

def c4S : ModelTypeSerializer :=
  ⟨⟨"Post", [], [c4Mf]⟩, some c4V, [], [], [],
   [("author_id", ⟨.integerField, []⟩)], [("author_id", c4Mf)]⟩

def c4Db : DB := fun mn pk => some (.obj mn pk)

def c4Attrs : AttrsDict := [("author_id", .int 7)]

/-- Witness for C4: attrs `{author_id: 7}` with bound parameter `author`
make the validator receive the looked-up `Author` instance under the key
`author` (the logical name, not the attname). -/
theorem validator_receives_resolved_relation_instances_witness :
    (∃ resolved, resolveValidatorForwardRelations c4S c4V c4Db c4Attrs =
        .ok resolved ∧
      dictGet resolved c4Mf.name = some (Value.obj "Author" (Value.int 7))) ∧
    dictGet ([("author", Value.obj "Author" (Value.int 7))] : AttrsDict)
      c4Mf.name = some (Value.obj "Author" (Value.int 7)) :=
  validator_receives_resolved_relation_instances c4S c4V c4Db false
    (fun _ => .none_) c4Attrs
    ⟨some [("author", Value.obj "Author" (Value.int 7))], c4Attrs⟩
    [("author", Value.obj "Author" (Value.int 7))]
    "author_id" (Value.int 7) (Value.obj "Author" (Value.int 7)) c4Mf
    rfl (by decide) (by decide) rfl (by decide) (by decide) (by decide)
    (fun k' mf' h1 _ => (dictGet_singleton_inv "author_id" c4Mf k' mf' h1).1)
    rfl rfl rfl

/-! ## Claim C7 -/

def c7Proxy : ConcreteField :=
  ⟨"bio", false, none, (.charField, [("required", KwValue.bool true)])⟩

def c7Rel : ForwardRelField :=
  ⟨"profile", false, false, false, false, [], "Profile", .autoField, "Author",
   (.integerField, [])⟩

def c7Author : ModelClass := ⟨"Author", [], [c7Rel]⟩

def c7Profile : ModelClass := ⟨"Profile", [c7Proxy], []⟩

def c7Env : Env := fun n => if n = "Profile" then c7Profile else c7Author

def c7Overrides : List (String × Kwargs) := [("bio", [("source", KwValue.str "zzz")])]

/-- Counterexample for C7: a `source` override on a one-to-one proxy field
does NOT win — the synthesized dotted path is merged on top of the override
map, so the final kwargs differ from `{**inferred, **overrides}`. -/
theorem proxy_source_override_loses_counterexample :
    (buildProxyFieldSerializer c7Env c7Author c7Overrides "profile" "bio" =
      .ok ("bio", ⟨.charField,
        [("required", KwValue.bool true), ("source", KwValue.str "profile.bio")]⟩)) ∧
    (dictGet (dictMerge c7Proxy.standardBuild.2
        ((dictGet c7Overrides "bio").getD [])) "source" =
      some (KwValue.str "zzz")) ∧
    ((mkModelTypeSerializer c7Env c7Author none c7Overrides
        (some [("profile", ["bio"])]) none).map
      (fun s => dictGet s.concreteFields "bio") =
      .ok (some ⟨.charField,
        [("required", KwValue.bool true), ("source", KwValue.str "profile.bio")]⟩)) ∧
    KwValue.str "profile.bio" ≠ KwValue.str "zzz" := by
  refine ⟨rfl, rfl, rfl, by decide⟩

/-- C7 amended: for a non-proxy concrete field the per-field override map
wins over the inferred kwargs for every option; for a one-to-one proxy
field the override map is merged over the inferred kwargs but the
synthesized dotted `source` path is merged last, so every option except
`source` obeys the override while `source` is always the dotted path. -/
theorem override_kwargs_win_except_proxy_source
    (env : Env) (m : ModelClass) (kw : List (String × Kwargs))
    (f : ConcreteField) (ovf : Kwargs)
    (hovf : (dictGet kw f.name).getD [] = ovf) (hndf : (dictKeys ovf).Nodup)
    (o2oName proxyName : String) (o2o : AnyField) (relName : String)
    (pf : AnyField) (ovp : Kwargs)
    (ho2o : m.getField o2oName = some o2o)
    (hrel : o2o.relatedModel? = some relName)
    (hpf : (env relName).getField proxyName = some pf)
    (hovp : (dictGet kw pf.name).getD [] = ovp) (hndp : (dictKeys ovp).Nodup)
    (k : String) :
    (∀ x, dictGet ovf k = some x →
      dictGet (buildConcreteFieldSerializer kw f).kwargs k = some x) ∧
    (dictGet ovf k = none →
      dictGet (buildConcreteFieldSerializer kw f).kwargs k =
        dictGet (match f.registered with
          | some _ => [("required", KwValue.bool (!f.null))]
          | none => f.standardBuild.2) k) ∧
    (buildProxyFieldSerializer env m kw o2oName proxyName =
      .ok (pf.name, ⟨pf.standardBuild.1,
        dictMerge (dictMerge pf.standardBuild.2 ovp)
          [("source", KwValue.str (o2o.name ++ "." ++ pf.name))]⟩)) ∧
    (dictGet (dictMerge (dictMerge pf.standardBuild.2 ovp)
        [("source", KwValue.str (o2o.name ++ "." ++ pf.name))]) "source" =
      some (KwValue.str (o2o.name ++ "." ++ pf.name))) ∧
    (k ≠ "source" → ∀ x, dictGet ovp k = some x →
      dictGet (dictMerge (dictMerge pf.standardBuild.2 ovp)
        [("source", KwValue.str (o2o.name ++ "." ++ pf.name))]) k = some x) := by
  have hmerge1 : ∀ (a : Kwargs) (src : KwValue),
      dictMerge a [("source", src)] = dictInsert a "source" src := fun a src => rfl
  refine ⟨?_, ?_, ?_, ?_, ?_⟩
  · intro x hx
    unfold buildConcreteFieldSerializer
    simp only [hovf]
    exact dictGet_dictMerge_of_some ovf _ k x hndf hx
  · intro hx
    unfold buildConcreteFieldSerializer
    simp only [hovf]
    cases f.registered with
    | some cls => exact dictGet_dictMerge_of_none ovf _ k hx
    | none => exact dictGet_dictMerge_of_none ovf _ k hx
  · unfold buildProxyFieldSerializer
    simp only [ho2o, hrel, hpf, hovp]
  · rw [hmerge1]
    exact dictGet_dictInsert_self _ "source" _
  · intro hk x hx
    rw [hmerge1]
    rw [dictGet_dictInsert_ne _ "source" _ k hk]
    exact dictGet_dictMerge_of_some ovp _ k x hndp hx

/-- Witness for the amended C7 at the counterexample's model: the concrete
branch honors a `source` override, the proxy branch forces the dotted path
over it while other overridden options still win. -/
theorem override_kwargs_win_except_proxy_source_witness :
    ((∀ x, dictGet [("source", KwValue.str "zzz")] "source" = some x →
      dictGet (buildConcreteFieldSerializer c7Overrides c7Proxy).kwargs "source" =
        some x) ∧
    (dictGet [("source", KwValue.str "zzz")] "source" = none →
      dictGet (buildConcreteFieldSerializer c7Overrides c7Proxy).kwargs "source" =
        dictGet (match c7Proxy.registered with
          | some _ => [("required", KwValue.bool (!c7Proxy.null))]
          | none => c7Proxy.standardBuild.2) "source") ∧
    (buildProxyFieldSerializer c7Env c7Author c7Overrides "profile" "bio" =
      .ok ((AnyField.concrete c7Proxy).name,
        ⟨(AnyField.concrete c7Proxy).standardBuild.1,
         dictMerge (dictMerge (AnyField.concrete c7Proxy).standardBuild.2
             [("source", KwValue.str "zzz")])
           [("source", KwValue.str ((AnyField.forwardRel c7Rel).name ++ "." ++
              (AnyField.concrete c7Proxy).name))]⟩)) ∧
    (dictGet (dictMerge (dictMerge (AnyField.concrete c7Proxy).standardBuild.2
        [("source", KwValue.str "zzz")])
        [("source", KwValue.str ((AnyField.forwardRel c7Rel).name ++ "." ++
           (AnyField.concrete c7Proxy).name))]) "source" =
      some (KwValue.str ((AnyField.forwardRel c7Rel).name ++ "." ++
        (AnyField.concrete c7Proxy).name))) ∧
    ("source" ≠ "source" → ∀ x,
      dictGet [("source", KwValue.str "zzz")] "source" = some x →
      dictGet (dictMerge (dictMerge (AnyField.concrete c7Proxy).standardBuild.2
          [("source", KwValue.str "zzz")])
          [("source", KwValue.str ((AnyField.forwardRel c7Rel).name ++ "." ++
             (AnyField.concrete c7Proxy).name))]) "source" = some x)) :=
  override_kwargs_win_except_proxy_source c7Env c7Author c7Overrides c7Proxy
    [("source", KwValue.str "zzz")] rfl (by decide) "profile" "bio"
    (AnyField.forwardRel c7Rel) "Profile" (AnyField.concrete c7Proxy)
    [("source", KwValue.str "zzz")] rfl rfl rfl rfl (by decide) "source"

/-! ## Claim C8 -/

/-- C8: for a forward-relation field with no per-field override, the
inferred kwargs have `required = False` exactly when the field has a
default, is blank-permitted or nullable; `allow_null = True` exactly when
nullable; the declared validators attached; and a uniqueness-check rule
bound to the owning model's default collection appended exactly when the
relation is unique. -/
theorem forward_rel_inferred_kwargs
    (kw : List (String × Kwargs)) (f : ForwardRelField)
    (hov : dictGet kw f.name = none) :
    (dictGet (forwardRelFieldKwargs kw f) "required" =
      if f.hasDefault || f.blank || f.null then some (KwValue.bool false) else none) ∧
    (dictGet (forwardRelFieldKwargs kw f) "allow_null" =
      if f.null then some (KwValue.bool true) else none) ∧
    (dictGet (forwardRelFieldKwargs kw f) "validators" =
      if f.unique then
        some (KwValue.vals (f.declaredValidators ++
          [FieldValidator.unique f.ownerModelName]))
      else if !f.declaredValidators.isEmpty then
        some (KwValue.vals f.declaredValidators)
      else none) := by
  obtain ⟨nm, nl, bl, hd, un, decl, rm, pk, ow, std⟩ := f
  simp only [forwardRelFieldKwargs] at *
  simp only [hov, Option.getD_none]
  cases nl <;> cases bl <;> cases hd <;> cases un <;> cases decl <;>
    exact ⟨rfl, rfl, rfl⟩

def c8F : ForwardRelField :=
  ⟨"owner", true, false, false, true, [FieldValidator.declared "v1"], "User",
   .autoField, "Post", (.integerField, [])⟩

/-- Witness for C8 on a nullable unique relation with one declared
validator: `required=False`, `allow_null=True`, and the validators list is
the declared one with the uniqueness rule appended. -/
theorem forward_rel_inferred_kwargs_witness :
    (dictGet (forwardRelFieldKwargs [] c8F) "required" =
      if c8F.hasDefault || c8F.blank || c8F.null then some (KwValue.bool false)
      else none) ∧
    (dictGet (forwardRelFieldKwargs [] c8F) "allow_null" =
      if c8F.null then some (KwValue.bool true) else none) ∧
    (dictGet (forwardRelFieldKwargs [] c8F) "validators" =
      if c8F.unique then
        some (KwValue.vals (c8F.declaredValidators ++
          [FieldValidator.unique c8F.ownerModelName]))
      else if !c8F.declaredValidators.isEmpty then
        some (KwValue.vals c8F.declaredValidators)
      else none) :=
  forward_rel_inferred_kwargs [] c8F rfl

/-! ## Claim C6 -/

/-- Default construction (no validator, overrides, proxies or property
fields) never fails. -/
theorem mkModelTypeSerializer_default_ok (env : Env) (m : ModelClass) :
    ∃ s, mkModelTypeSerializer env m = .ok s := by
  have hcore := buildSerializerCore_noProxy env m none [] none
  have h := mkModelTypeSerializer_eq_check env m none [] none none _ hcore
  exact ⟨_, h⟩

/-- C6 amended: a string (or list-element) prefetch entry naming a relation
model field yields a nested non-list marshaller for the related model; a
name resolving to no model field falls back to the opaque read-only rule
instead of raising; but a name resolving to a non-relation model field
raises an uncaught error (no related model to build a marshaller for). -/
theorem string_prefetch_entry_rules
    (env : Env) (s : ModelTypeSerializer)
    (nameRel nameMiss nameScalar : String)
    (f fc : AnyField) (relName : String)
    (hf : s.modelCls.getField nameRel = some f)
    (hrel : f.relatedModel? = some relName)
    (hmiss : s.modelCls.getField nameMiss = none)
    (hfc : s.modelCls.getField nameScalar = some fc)
    (hnorel : fc.relatedModel? = none) :
    (∃ relS, mkModelTypeSerializer env (env relName) = .ok relS ∧
      s.buildPrefetchSerializer env nameRel = .ok
        (.nested relS.baseSerializerCls.clsName relS.baseSerializerCls.metaFields
          relS.baseSerializerCls.declaredFields false)) ∧
    (s.buildPrefetchSerializer env nameMiss = .ok (.plain propertyFieldSerializer)) ∧
    (s.buildPrefetchSerializer env nameScalar = .error .attributeError) := by
  obtain ⟨relS, hok⟩ := mkModelTypeSerializer_default_ok env (env relName)
  refine ⟨⟨relS, hok, ?_⟩, ?_, ?_⟩
  · unfold ModelTypeSerializer.buildPrefetchSerializer
    simp only [hf, hrel, hok, Bind.bind, Except.bind, pure, Except.pure]
  · unfold ModelTypeSerializer.buildPrefetchSerializer
    simp only [hmiss]
  · unfold ModelTypeSerializer.buildPrefetchSerializer
    simp only [hfc, hnorel]

def c6Rel : ForwardRelField :=
  ⟨"r", false, false, false, false, [], "A", .autoField, "M", (.integerField, [])⟩

def c6M : ModelClass :=
  ⟨"M", [⟨"x", false, some .integerField, (.integerField, [])⟩], [c6Rel]⟩

def c6A : ModelClass := ⟨"A", [], []⟩

def c6Env : Env := fun n => if n = "A" then c6A else c6M

def c6S : ModelTypeSerializer :=
  ⟨c6M, none, [], [("x", ⟨.integerField, [("required", KwValue.bool true)]⟩)], [],
   [("r_id", ⟨.integerField, []⟩)], [("r_id", c6Rel)]⟩

/-- Counterexample for C6 as stated: the prefetch name `x` resolves to a
model field (a concrete integer field), yet no nested marshaller is
produced — the expansion raises an uncaught attribute error (the field has
no related model). -/
theorem nonrelation_prefetch_field_crashes_counterexample :
    mkModelTypeSerializer c6Env c6M = .ok c6S ∧
    (c6M.getField "x").isSome = true ∧
    c6S.buildPrefetchSerializer c6Env "x" = .error .attributeError ∧
    ∀ r, c6S.buildPrefetchSerializer c6Env "x" ≠ .ok r := by
  refine ⟨rfl, rfl, rfl, ?_⟩
  intro r hc
  rw [show c6S.buildPrefetchSerializer c6Env "x" = .error .attributeError from rfl]
    at hc
  exact Except.noConfusion hc

/-- Witness for the amended C6 on a concrete model: `r` (a relation) gets a
nested marshaller, `zz` (no field) gets the opaque rule, `x` (a concrete
non-relation field) raises. -/
theorem string_prefetch_entry_rules_witness :
    (∃ relS, mkModelTypeSerializer c6Env (c6Env "A") = .ok relS ∧
      c6S.buildPrefetchSerializer c6Env "r" = .ok
        (.nested relS.baseSerializerCls.clsName relS.baseSerializerCls.metaFields
          relS.baseSerializerCls.declaredFields false)) ∧
    (c6S.buildPrefetchSerializer c6Env "zz" = .ok (.plain propertyFieldSerializer)) ∧
    (c6S.buildPrefetchSerializer c6Env "x" = .error .attributeError) :=
  string_prefetch_entry_rules c6Env c6S "r" "zz" "x"
    (AnyField.forwardRel c6Rel)
    (AnyField.concrete ⟨"x", false, some .integerField, (.integerField, [])⟩)
    "A" rfl rfl rfl rfl rfl

/-! ## Claim C10 -/

/-- C10: a mapping prefetch entry whose key does not name a model field
raises an uncaught field-lookup error, while the computed-field fallback
applies to the same missing name when it appears as a string entry. -/
theorem mapping_prefetch_key_miss_raises
    (env : Env) (s : ModelTypeSerializer) (acc : List (String × FieldRule))
    (k : String) (t : PrefetchTree) (entries : List (String × PrefetchTree))
    (ts : List PrefetchTree)
    (hk : s.modelCls.getField k = none) :
    buildPrefetchFields env s acc (PrefetchTree.node ((k, t) :: entries) :: ts) =
      .error (.fieldDoesNotExist k) ∧
    s.buildPrefetchSerializer env k = .ok (.plain propertyFieldSerializer) := by
  constructor
  · simp only [buildPrefetchFields, buildPrefetchOne, buildPrefetchNode, hk,
      Bind.bind, Except.bind]
  · unfold ModelTypeSerializer.buildPrefetchSerializer
    simp only [hk]

/-- Witness for C10: on the `M` model, the mapping spec `{zz: []}` raises
`FieldDoesNotExist(zz)` while the string spec `zz` yields the opaque rule. -/
theorem mapping_prefetch_key_miss_raises_witness :
    buildPrefetchFields c6Env c6S []
        [PrefetchTree.node [("zz", PrefetchTree.flat [])]] =
      .error (.fieldDoesNotExist "zz") ∧
    c6S.buildPrefetchSerializer c6Env "zz" = .ok (.plain propertyFieldSerializer) :=
  mapping_prefetch_key_miss_raises c6Env c6S [] "zz" (PrefetchTree.flat []) [] [] rfl

/-! ## Claim C5 -/

theorem buildPrefetchFields_append (env : Env) (s : ModelTypeSerializer) :
    ∀ (ts us : List PrefetchTree) (acc : List (String × FieldRule)),
      buildPrefetchFields env s acc (ts ++ us) =
        (buildPrefetchFields env s acc ts) >>= fun d =>
          buildPrefetchFields env s d us := by
  intro ts
  induction ts with
  | nil =>
    intro us acc
    rw [List.nil_append]
    have h0 : buildPrefetchFields env s acc ([] : List PrefetchTree) = .ok acc := by
      simp only [buildPrefetchFields]
    rw [h0]
    rfl
  | cons t ts ih =>
    intro us acc
    rw [List.cons_append]
    have hc : ∀ (l : List PrefetchTree),
        buildPrefetchFields env s acc (t :: l) =
          (buildPrefetchOne env s acc t) >>= fun acc' =>
            buildPrefetchFields env s acc' l := by
      intro l
      simp only [buildPrefetchFields]
    rw [hc (ts ++ us), hc ts]
    cases hone : buildPrefetchOne env s acc t with
    | error e => simp only [hone, Bind.bind, Except.bind]
    | ok acc' =>
      simp only [hone, Bind.bind, Except.bind]
      exact ih us acc'

def c5A : ModelClass := ⟨"A", [⟨"t", false, some .charField, (.charField, [])⟩], []⟩

def c5Rel : ForwardRelField :=
  ⟨"a", false, false, false, false, [], "A", .autoField, "P", (.integerField, [])⟩

def c5P : ModelClass :=
  ⟨"P", [⟨"id", false, some .integerField, (.integerField, [])⟩], [c5Rel]⟩

def c5Env : Env := fun n => if n = "A" then c5A else c5P

def c5S : ModelTypeSerializer :=
  ⟨c5P, none, [], [("id", ⟨.integerField, [("required", KwValue.bool true)]⟩)], [],
   [("a_id", ⟨.integerField, []⟩)], [("a_id", c5Rel)]⟩

def c5SA : ModelTypeSerializer :=
  ⟨c5A, none, [], [("t", ⟨.charField, [("required", KwValue.bool true)]⟩)], [], [], []⟩

def c5StringRule : FieldRule :=
  .nested "ASerializer" ["t"]
    [("t", .plain ⟨.charField, [("required", KwValue.bool true)]⟩)] false

def c5MappingRule : FieldRule :=
  .nested "APrefetchSerializer" ["t", "x"]
    [("t", .plain ⟨.charField, [("required", KwValue.bool true)]⟩),
     ("x", .plain propertyFieldSerializer)] false

def fieldRuleClsName : FieldRule → Option String
  | .plain _ => none
  | .nested n _ _ _ => some n

/-- C5: prefetch entries are processed in iteration order (expansion over a
concatenation is sequential), and a later entry with a colliding field name
overwrites an earlier one: `["a", {"a": ["x"]}]` yields the mapping-based
nested marshaller shape for `a` — not the string-based shape — with the
base field set otherwise unchanged. -/
theorem prefetch_entries_processed_in_order_last_write_wins :
    (∀ (env : Env) (s : ModelTypeSerializer) (acc : List (String × FieldRule))
        (ts us : List PrefetchTree),
      buildPrefetchFields env s acc (ts ++ us) =
        (buildPrefetchFields env s acc ts) >>= fun d =>
          buildPrefetchFields env s d us) ∧
    (c5S.buildPrefetchSerializerTree c5Env
        [PrefetchTree.leaf "a", PrefetchTree.node [("a", PrefetchTree.flat ["x"])]] =
      .ok ⟨"PPrefetchSerializer", ["id", "a_id", "a"],
        [("id", .plain ⟨.integerField, [("required", KwValue.bool true)]⟩),
         ("a_id", .plain ⟨.integerField, []⟩),
         ("a", c5MappingRule)]⟩) ∧
    (c5S.buildPrefetchSerializer c5Env "a" = .ok c5StringRule) ∧
    (fieldRuleClsName c5MappingRule ≠ fieldRuleClsName c5StringRule) := by
  have hmkA : mkModelTypeSerializer c5Env (c5Env "A") = .ok c5SA := rfl
  have hA : buildPrefetchOne c5Env c5S [] (PrefetchTree.leaf "a") =
      .ok [("a", c5StringRule)] := by
    simp only [buildPrefetchOne]
    rfl
  have hFx : buildPrefetchFields c5Env c5SA [] [PrefetchTree.flat ["x"]] =
      .ok [("x", .plain propertyFieldSerializer)] := by
    simp only [buildPrefetchFields, buildPrefetchOne, Bind.bind, Except.bind]
    rfl
  have hgetA : c5S.modelCls.getField "a" = some (AnyField.forwardRel c5Rel) := rfl
  have hrelA : (AnyField.forwardRel c5Rel).relatedModel? = some "A" := rfl
  have hNode : buildPrefetchOne c5Env c5S [("a", c5StringRule)]
      (PrefetchTree.node [("a", PrefetchTree.flat ["x"])]) =
      .ok [("a", c5MappingRule)] := by
    simp only [buildPrefetchOne, buildPrefetchNode, hgetA, hrelA, hmkA, hFx,
      Bind.bind, Except.bind]
    rfl
  have hTotal : buildPrefetchFields c5Env c5S []
      [PrefetchTree.leaf "a", PrefetchTree.node [("a", PrefetchTree.flat ["x"])]] =
      .ok [("a", c5MappingRule)] := by
    simp only [buildPrefetchFields, hA, hNode, Bind.bind, Except.bind]
  refine ⟨fun env s acc ts us => buildPrefetchFields_append env s ts us acc,
    ?_, rfl, by decide⟩
  unfold ModelTypeSerializer.buildPrefetchSerializerTree
  rw [hTotal]
  rfl

/-! ## Claim C9 -/

/-- C9: type projection walks the resolved field set in insertion order,
emitting for every field a declaration with `optional = allow_null` and
`readonly = read_only`; a nullable string field projects to
`{optional: true, type: string}` and a read-only computed (JSON) field to
`{readonly: true, type: any}`. -/
theorem type_projection_optional_readonly (fields : List (String × FieldRule)) :
    (fieldTypeDeclarations fields = fields.map (fun p =>
      renderTypeDeclaration p.1 p.2.allowNull p.2.readOnly (fieldTypeTranspile p.2))) ∧
    (fieldTypeDeclarations
        [("s", .plain ⟨.charField, [("allow_null", KwValue.bool true)]⟩)] =
      [⟨"s", true, false, "string"⟩]) ∧
    (fieldTypeDeclarations [("c", .plain propertyFieldSerializer)] =
      [⟨"c", false, true, "any"⟩]) := by
  refine ⟨?_, rfl, rfl⟩
  have hgen : ∀ (l : List (String × FieldRule)) (acc : List TypeDeclaration),
      l.foldl (fun decls p => decls ++
          [renderTypeDeclaration p.1 p.2.allowNull p.2.readOnly
            (fieldTypeTranspile p.2)]) acc =
        acc ++ l.map (fun p =>
          renderTypeDeclaration p.1 p.2.allowNull p.2.readOnly
            (fieldTypeTranspile p.2)) := by
    intro l
    induction l with
    | nil => intro acc; simp
    | cons p l ih =>
      intro acc
      rw [List.foldl_cons, List.map_cons, ih]
      simp
  unfold fieldTypeDeclarations
  rw [hgen]
  simp

end DjangoTS
